import Mathlib

/-
Verification of the distributed update coordinator
(src/distributed/updates_rpc_server.cpp) and of the planner cost model
of this repository, as a shallow embedding in Lean.

Machine integers (gids, transaction ids, worker ids, property and label
ids) are modelled as Nat: none of the verified code performs arithmetic
on them, they are only compared for equality or order, so overflow never
matters.  std::unordered_map and the concurrent maps are modelled as
association lists in iteration order; std::vector as List.
-/

namespace Memgraph

/-- Global identifier of a record (gid::Gid). -/
abbrev Gid := Nat

/-- Transaction identifier (tx::transaction_id_t). -/
abbrev TxId := Nat

/-- A cluster address: (worker_id, gid), cf. storage::VertexAddress /
storage::EdgeAddress.  `LocalizedAddressIfPossible` only swaps the
representation to a local pointer and is the identity on this model. -/
structure Address where
  worker_id : Nat
  gid : Gid
deriving DecidableEq, Repr

/-- The tag set of database::StateDelta::Type. -/
inductive DeltaType where
  | TRANSACTION_BEGIN
  | TRANSACTION_COMMIT
  | TRANSACTION_ABORT
  | CREATE_VERTEX
  | CREATE_EDGE
  | SET_PROPERTY_VERTEX
  | SET_PROPERTY_EDGE
  | ADD_LABEL
  | REMOVE_LABEL
  | ADD_OUT_EDGE
  | ADD_IN_EDGE
  | REMOVE_VERTEX
  | REMOVE_EDGE
  | REMOVE_OUT_EDGE
  | REMOVE_IN_EDGE
  | BUILD_INDEX
deriving DecidableEq, Repr

/-- database::StateDelta: the tag, the owning transaction id, and the
fields relevant to the tag (unused fields keep a default value). -/
structure StateDelta where
  type : DeltaType
  transaction_id : TxId
  vertex_id : Gid := 0
  edge_id : Gid := 0
  property : Nat := 0
  value : Nat := 0
  label : Nat := 0
  check_empty : Bool := false
  vertex_from_address : Address := ⟨0, 0⟩
  vertex_to_address : Address := ⟨0, 0⟩
  edge_address : Address := ⟨0, 0⟩
  edge_type : Nat := 0
deriving DecidableEq, Repr

/-- Modelled from the spec: database::StateDelta::AddOutEdge
(state_delta.cpp is not under src/); the arguments are the ones of the
call sites in updates_rpc_server.cpp. -/
def StateDelta.AddOutEdge (tx : TxId) (vertex_id : Gid) (vertex_to_address : Address)
    (edge_address : Address) (edge_type : Nat) : StateDelta :=
  { type := .ADD_OUT_EDGE, transaction_id := tx, vertex_id := vertex_id,
    vertex_to_address := vertex_to_address, edge_address := edge_address,
    edge_type := edge_type }

/-- Modelled from the spec: database::StateDelta::AddInEdge
(state_delta.cpp is not under src/); arguments as at the call sites. -/
def StateDelta.AddInEdge (tx : TxId) (vertex_id : Gid) (vertex_from_address : Address)
    (edge_address : Address) (edge_type : Nat) : StateDelta :=
  { type := .ADD_IN_EDGE, transaction_id := tx, vertex_id := vertex_id,
    vertex_from_address := vertex_from_address, edge_address := edge_address,
    edge_type := edge_type }

/-- Modelled from the spec: database::StateDelta::RemoveVertex. -/
def StateDelta.RemoveVertex (tx : TxId) (vertex_id : Gid) (check_empty : Bool) :
    StateDelta :=
  { type := .REMOVE_VERTEX, transaction_id := tx, vertex_id := vertex_id,
    check_empty := check_empty }

/-- Modelled from the spec: database::StateDelta::RemoveEdge. -/
def StateDelta.RemoveEdge (tx : TxId) (edge_id : Gid) : StateDelta :=
  { type := .REMOVE_EDGE, transaction_id := tx, edge_id := edge_id }

/-- Modelled from the spec: database::StateDelta::RemoveOutEdge. -/
def StateDelta.RemoveOutEdge (tx : TxId) (vertex_id : Gid) (edge_address : Address) :
    StateDelta :=
  { type := .REMOVE_OUT_EDGE, transaction_id := tx, vertex_id := vertex_id,
    edge_address := edge_address }

/-- Modelled from the spec: database::StateDelta::RemoveInEdge. -/
def StateDelta.RemoveInEdge (tx : TxId) (vertex_id : Gid) (edge_address : Address) :
    StateDelta :=
  { type := .REMOVE_IN_EDGE, transaction_id := tx, vertex_id := vertex_id,
    edge_address := edge_address }

/-- distributed::UpdateResult. -/
inductive UpdateResult where
  | DONE
  | SERIALIZATION_ERROR
  | LOCK_TIMEOUT_ERROR
  | UPDATE_DELETED_ERROR
  | UNABLE_TO_DELETE_VERTEX_ERROR
deriving DecidableEq, Repr

/-- The three storage exceptions caught by TransactionUpdates::Apply
(updates_rpc_server.cpp:162-168). -/
inductive MvccError where
  | serializationError
  | recordDeleted
  | lockTimeout
deriving DecidableEq, Repr

/-- The catch clauses at updates_rpc_server.cpp:162-168: which
UpdateResult each caught exception is turned into. -/
def errorResult : MvccError → UpdateResult
  | .serializationError => .SERIALIZATION_ERROR
  | .recordDeleted => .UPDATE_DELETED_ERROR
  | .lockTimeout => .LOCK_TIMEOUT_ERROR

/-- Abstraction of the MVCC storage behaviour seen while a buffered delta
is applied.  `raises g d` says whether performing the record operation of
delta `d` on record `g` raises a storage exception (the record operations
themselves live outside src/); `vertexHasEdges g` says whether vertex `g`
still has incident edges at application time. -/
structure ApplyEnv where
  raises : Gid → StateDelta → Option MvccError
  vertexHasEdges : Gid → Bool

/-- Modelled from the spec: GraphDbAccessor::RemoveVertex (not under
src/) returns false exactly when `check_empty` is set and the vertex
still has incident edges, and true (vertex removed) otherwise. -/
def removeVertexSucceeds (env : ApplyEnv) (g : Gid) (check_empty : Bool) : Bool :=
  !(check_empty && env.vertexHasEdges g)

/-- Result of applying one buffered delta: success (with the list of
deltas emplaced into the WAL by this application), an error result, or a
LOG of FATAL severity that kills the process. -/
inductive StepOut where
  | ok (wal : List StateDelta)
  | err (r : UpdateResult)
  | fatal
deriving DecidableEq, Repr

/-- The application of one buffered delta: the switch at
updates_rpc_server.cpp:99-161 together with the catch clauses at
162-168.  Transaction, create and index deltas hit the LOG of FATAL
severity; a raised storage exception becomes its error result; a
REMOVE_VERTEX refused by GraphDbAccessor::RemoveVertex becomes
UNABLE_TO_DELETE_VERTEX_ERROR; ADD_OUT_EDGE and ADD_IN_EDGE additionally
emplace the delta into the WAL; everything else succeeds silently. -/
def applyOne (env : ApplyEnv) (g : Gid) (d : StateDelta) : StepOut :=
  match d.type with
  | .TRANSACTION_BEGIN | .TRANSACTION_COMMIT | .TRANSACTION_ABORT
  | .CREATE_VERTEX | .CREATE_EDGE | .BUILD_INDEX => .fatal
  | t =>
    match env.raises g d with
    | some e => .err (errorResult e)
    | none =>
      match t with
      | .REMOVE_VERTEX =>
          if removeVertexSucceeds env g d.check_empty then .ok []
          else .err .UNABLE_TO_DELETE_VERTEX_ERROR
      | .ADD_OUT_EDGE => .ok [d]
      | .ADD_IN_EDGE => .ok [d]
      | _ => .ok []

/-- Outcome of a whole Apply: a returned UpdateResult, or the process
died on a LOG of FATAL severity. -/
inductive Outcome where
  | res (r : UpdateResult)
  | fatal
deriving DecidableEq, Repr

/-- Result of TransactionUpdates::Apply: the outcome, the WAL emissions
in emission order, and the trace of successfully applied deltas (record
gid paired with the delta) in application order. -/
structure ApplyRes where
  outcome : Outcome
  wal : List StateDelta
  applied : List (Gid × StateDelta)
deriving DecidableEq, Repr

/-- The inner loop of TransactionUpdates::Apply
(updates_rpc_server.cpp:96-169): the queued deltas of one record are
applied front to back; the first error is returned immediately. -/
def applyQueue (env : ApplyEnv) (g : Gid) : List StateDelta → ApplyRes
  | [] => ⟨.res .DONE, [], []⟩
  | d :: ds =>
    match applyOne env g d with
    | .fatal => ⟨.fatal, [], []⟩
    | .err r => ⟨.res r, [], []⟩
    | .ok w =>
      let rest := applyQueue env g ds
      ⟨rest.outcome, w ++ rest.wal, (g, d) :: rest.applied⟩

/-- The outer loop of TransactionUpdates::Apply
(updates_rpc_server.cpp:91-171): records in map iteration order, each
reconstructed and then its queue applied; the first non-Done result ends
the whole application. -/
def applyEntries (env : ApplyEnv) : List (Gid × List StateDelta) → ApplyRes
  | [] => ⟨.res .DONE, [], []⟩
  | (g, q) :: rest =>
    let head := applyQueue env g q
    match head.outcome with
    | .res .DONE =>
      let tail := applyEntries env rest
      ⟨tail.outcome, head.wal ++ tail.wal, head.applied ++ tail.applied⟩
    | o => ⟨o, head.wal, head.applied⟩

/-- Look a record up in a buffered-deltas association list (the map
`deltas_` of a TransactionUpdates, in iteration order). -/
def findQueue : List (Gid × List StateDelta) → Gid → Option (List StateDelta)
  | [], _ => none
  | (g, q) :: rest, gid => if g = gid then some q else findQueue rest gid

/-- The queue buffered for a record, empty when the record has no entry. -/
def queueOf (l : List (Gid × List StateDelta)) (gid : Gid) : List StateDelta :=
  (findQueue l gid).getD []

/-- The find-or-create-then-push-back of TransactionUpdates::Emplace
(updates_rpc_server.cpp:17-26): append the delta to the queue of its
record, creating the entry when absent. -/
def addDelta : List (Gid × List StateDelta) → Gid → StateDelta →
    List (Gid × List StateDelta)
  | [], gid, d => [(gid, [d])]
  | (g, q) :: rest, gid, d =>
    if g = gid then (g, q ++ [d]) :: rest else (g, q) :: addDelta rest gid d

/-- std::map::emplace of a fresh record with an empty delta queue, as in
TransactionUpdates::CreateVertex / CreateEdge: a no-op when the key is
already present. -/
def emplaceEntry (l : List (Gid × List StateDelta)) (gid : Gid) :
    List (Gid × List StateDelta) :=
  match findQueue l gid with
  | some _ => l
  | none => l ++ [(gid, [])]

/-- UpdatesRpcServer::TransactionUpdates: the per-transaction buffer of
deltas, keyed by record gid.  The stored record accessor is determined
by the entry key, so only the delta queues are kept. -/
structure TxUpdates where
  deltas : List (Gid × List StateDelta)
deriving DecidableEq, Repr

/-- TransactionUpdates::Emplace (updates_rpc_server.cpp:10-59): pick the
gid according to the record kind of the instantiation (vertex deltas are
keyed by `vertex_id`, edge deltas by `edge_id`), enqueue the delta, and
return DONE — the commented-out eager error detection does not run. -/
def TxUpdates.Emplace (u : TxUpdates) (isVertex : Bool) (d : StateDelta) :
    TxUpdates × UpdateResult :=
  let gid := if isVertex then d.vertex_id else d.edge_id
  (⟨addDelta u.deltas gid d⟩, .DONE)

/-- TransactionUpdates::Apply (updates_rpc_server.cpp:88-172). -/
def TxUpdates.Apply (env : ApplyEnv) (u : TxUpdates) : ApplyRes :=
  applyEntries env u.deltas

/-- A sequence of Emplace calls on the same TransactionUpdates. -/
def emplaceAll (u : TxUpdates) (isVertex : Bool) (ds : List StateDelta) : TxUpdates :=
  ds.foldl (fun acc d => (acc.Emplace isVertex d).1) u

/-- The deltas of an application trace that were applied to record `g`,
in application order. -/
def appliedAt (g : Gid) (applied : List (Gid × StateDelta)) : List StateDelta :=
  (applied.filter (fun p => decide (p.1 = g))).map Prod.snd

/-- The delta tags the switch of TransactionUpdates::Apply accepts: a
record-update delta; the other tags hit the LOG of FATAL severity. -/
def DeltaType.isRecordUpdate : DeltaType → Bool
  | .TRANSACTION_BEGIN | .TRANSACTION_COMMIT | .TRANSACTION_ABORT
  | .CREATE_VERTEX | .CREATE_EDGE | .BUILD_INDEX => false
  | _ => true

/-- Vertex payload of the local store: labels and properties. -/
structure LocalVertex where
  labels : List Nat
  props : List (Nat × Nat)
deriving DecidableEq, Repr

/-- Modelled from the spec: VertexAccessor::add_label (vertex accessor
code is not under src/) — labels form a set, adding a present label is a
no-op. -/
def LocalVertex.add_label (v : LocalVertex) (l : Nat) : LocalVertex :=
  if l ∈ v.labels then v else { v with labels := v.labels ++ [l] }

/-- Modelled from the spec: RecordAccessor::PropsSet — properties form a
map property → value, setting overwrites any previous value. -/
def LocalVertex.PropsSet (v : LocalVertex) (k val : Nat) : LocalVertex :=
  { v with props := v.props.filter (fun kv => !decide (kv.1 = k)) ++ [(k, val)] }

/-- Edge payload of the local store: endpoints and type. -/
structure LocalEdge where
  from_address : Address
  to_address : Address
  edge_type : Nat
deriving DecidableEq, Repr

/-- The worker-local record store reached through the graph accessor,
with the gid allocator.  Only what CreateVertex / CreateEdge observe. -/
structure LocalDb where
  next_gid : Gid
  vertices : List (Gid × LocalVertex)
  edges : List (Gid × LocalEdge)
deriving DecidableEq, Repr

/-- Look a vertex up in the local store. -/
def findVertex : List (Gid × LocalVertex) → Gid → Option LocalVertex
  | [], _ => none
  | (g, v) :: rest, gid => if g = gid then some v else findVertex rest gid

/-- TransactionUpdates::CreateVertex (updates_rpc_server.cpp:61-73):
InsertVertex allocates a fresh gid and an empty vertex, the add_label
and PropsSet loops write through the accessor into that fresh vertex,
and the accessor is registered with an EMPTY delta queue.  The loops all
target the freshly inserted record, so they are folded into it before
the store append. -/
def TxUpdates.CreateVertex (u : TxUpdates) (db : LocalDb) (labels : List Nat)
    (properties : List (Nat × Nat)) : TxUpdates × LocalDb × Gid :=
  let g := db.next_gid
  let v1 := labels.foldl (fun v l => v.add_label l) (⟨[], []⟩ : LocalVertex)
  let v2 := properties.foldl (fun v kv => v.PropsSet kv.1 kv.2) v1
  (⟨emplaceEntry u.deltas g⟩,
   { db with next_gid := g + 1, vertices := db.vertices ++ [(g, v2)] },
   g)

/-- TransactionUpdates::CreateEdge (updates_rpc_server.cpp:75-86):
InsertOnlyEdge allocates a fresh gid and stores the edge record with
endpoints ((worker_id, from)), to_addr and the type; the accessor is
registered with an empty delta queue. -/
def TxUpdates.CreateEdge (u : TxUpdates) (db : LocalDb) (worker_id : Nat)
    (from_gid : Gid) (to_addr : Address) (edge_type : Nat) : TxUpdates × LocalDb × Gid :=
  let g := db.next_gid
  let db1 := { db with next_gid := g + 1,
                       edges := db.edges ++ [(g, ⟨⟨worker_id, from_gid⟩, to_addr, edge_type⟩)] }
  (⟨emplaceEntry u.deltas g⟩, db1, g)

/-- distributed::CreateResult. -/
structure CreateResult where
  result : UpdateResult
  gid : Gid
deriving DecidableEq, Repr

/-- distributed::CreateEdgeReqData (`from` is a Lean keyword, hence
`from_gid`). -/
structure CreateEdgeReqData where
  tx_id : TxId
  from_gid : Gid
  to_addr : Address
  edge_type : Nat
deriving DecidableEq, Repr

/-- distributed::RemoveEdgeData. -/
structure RemoveEdgeData where
  tx_id : TxId
  edge_id : Gid
  vertex_from_id : Gid
  vertex_to_address : Address
deriving DecidableEq, Repr

/-- distributed::UpdatesRpcServer: its two per-transaction update maps,
the owning worker id, and the local store reached through its graph
accessors. -/
structure UpdatesRpcServer where
  worker_id : Nat
  db : LocalDb
  vertex_updates : List (TxId × TxUpdates)
  edge_updates : List (TxId × TxUpdates)
deriving DecidableEq, Repr

/-- Find a transaction entry in one of the update maps. -/
def findTx : List (TxId × TxUpdates) → TxId → Option TxUpdates
  | [], _ => none
  | (t, u) :: rest, tx => if t = tx then some u else findTx rest tx

/-- UpdatesRpcServer::GetUpdates (updates_rpc_server.cpp:292-299):
get-or-create the TransactionUpdates of a transaction.  The created
entry is empty; the functional model pairs this with `setUpdates` to
store back the buffer mutated through the returned reference. -/
def getUpdates (m : List (TxId × TxUpdates)) (tx : TxId) : TxUpdates :=
  match findTx m tx with
  | some u => u
  | none => ⟨[]⟩

/-- Store back a TransactionUpdates mutated through the reference that
GetUpdates returned (updating the entry in place, creating it if it was
just emplaced). -/
def setUpdates : List (TxId × TxUpdates) → TxId → TxUpdates →
    List (TxId × TxUpdates)
  | [], tx, u => [(tx, u)]
  | (t, u0) :: rest, tx, u =>
    if t = tx then (t, u) :: rest else (t, u0) :: setUpdates rest tx u

/-- ConcurrentMap access().remove(tx_id). -/
def removeTx (m : List (TxId × TxUpdates)) (tx : TxId) : List (TxId × TxUpdates) :=
  m.filter (fun kv => !decide (kv.1 = tx))

/-- The UpdateRpc handler (updates_rpc_server.cpp:177-195): vertex
deltas go to the vertex updates, SET_PROPERTY_EDGE to the edge updates,
anything else hits a LOG of FATAL severity (`none`). -/
def UpdatesRpcServer.HandleUpdate (s : UpdatesRpcServer) (delta : StateDelta) :
    Option (UpdatesRpcServer × UpdateResult) :=
  match delta.type with
  | .SET_PROPERTY_VERTEX | .ADD_LABEL | .REMOVE_LABEL
  | .REMOVE_OUT_EDGE | .REMOVE_IN_EDGE =>
    let (u, r) := (getUpdates s.vertex_updates delta.transaction_id).Emplace true delta
    some ({ s with vertex_updates := setUpdates s.vertex_updates delta.transaction_id u }, r)
  | .SET_PROPERTY_EDGE =>
    let (u, r) := (getUpdates s.edge_updates delta.transaction_id).Emplace false delta
    some ({ s with edge_updates := setUpdates s.edge_updates delta.transaction_id u }, r)
  | _ => none

/-- The CreateVertexRpc handler (updates_rpc_server.cpp:201-206):
delegate to TransactionUpdates::CreateVertex of the transaction's vertex
updates and answer (DONE, gid). -/
def UpdatesRpcServer.HandleCreateVertex (s : UpdatesRpcServer) (tx : TxId)
    (labels : List Nat) (properties : List (Nat × Nat)) :
    UpdatesRpcServer × CreateResult :=
  let u := getUpdates s.vertex_updates tx
  let (u1, db1, g) := u.CreateVertex s.db labels properties
  ({ s with db := db1, vertex_updates := setUpdates s.vertex_updates tx u1 },
   ⟨.DONE, g⟩)

/-- UpdatesRpcServer::CreateEdge (updates_rpc_server.cpp:301-310):
insert the edge into the transaction's edge updates, then emplace the
ADD_OUT_EDGE delta on the from-vertex in the vertex updates. -/
def UpdatesRpcServer.CreateEdge (s : UpdatesRpcServer) (req : CreateEdgeReqData) :
    UpdatesRpcServer × CreateResult :=
  let u := getUpdates s.edge_updates req.tx_id
  let (u1, db1, g) := u.CreateEdge s.db s.worker_id req.from_gid req.to_addr req.edge_type
  let s1 := { s with db := db1, edge_updates := setUpdates s.edge_updates req.tx_id u1 }
  let from_delta := StateDelta.AddOutEdge req.tx_id req.from_gid req.to_addr
      ⟨s.worker_id, g⟩ req.edge_type
  let (uv, r) := (getUpdates s1.vertex_updates req.tx_id).Emplace true from_delta
  ({ s1 with vertex_updates := setUpdates s1.vertex_updates req.tx_id uv }, ⟨r, g⟩)

/-- The CreateEdgeRpc handler (updates_rpc_server.cpp:208-224): after
CreateEdge, when it returned DONE and the to-vertex lives on this
worker, additionally emplace the ADD_IN_EDGE delta on the to-vertex. -/
def UpdatesRpcServer.HandleCreateEdge (s : UpdatesRpcServer) (data : CreateEdgeReqData) :
    UpdatesRpcServer × CreateResult :=
  let (s1, creation_result) := s.CreateEdge data
  if creation_result.result = .DONE ∧ data.to_addr.worker_id = s1.worker_id then
    let to_delta := StateDelta.AddInEdge data.tx_id data.to_addr.gid
        ⟨s1.worker_id, data.from_gid⟩ ⟨s1.worker_id, creation_result.gid⟩ data.edge_type
    let (uv, r) := (getUpdates s1.vertex_updates data.tx_id).Emplace true to_delta
    ({ s1 with vertex_updates := setUpdates s1.vertex_updates data.tx_id uv },
     { creation_result with result := r })
  else (s1, creation_result)

/-- UpdatesRpcServer::RemoveEdge (updates_rpc_server.cpp:312-335):
buffer REMOVE_EDGE on the edge updates; if that returned DONE buffer
REMOVE_OUT_EDGE on the from-vertex; if still DONE and the to-vertex is
local buffer REMOVE_IN_EDGE on it; return the last result. -/
def UpdatesRpcServer.RemoveEdge (s : UpdatesRpcServer) (data : RemoveEdgeData) :
    UpdatesRpcServer × UpdateResult :=
  let deletion_delta := StateDelta.RemoveEdge data.tx_id data.edge_id
  let (ue, result) := (getUpdates s.edge_updates data.tx_id).Emplace false deletion_delta
  let s1 := { s with edge_updates := setUpdates s.edge_updates data.tx_id ue }
  let step2 :=
    if result = .DONE then
      let remove_out_delta := StateDelta.RemoveOutEdge data.tx_id data.vertex_from_id
          ⟨s1.worker_id, data.edge_id⟩
      let (uv, r) := (getUpdates s1.vertex_updates data.tx_id).Emplace true remove_out_delta
      ({ s1 with vertex_updates := setUpdates s1.vertex_updates data.tx_id uv }, r)
    else (s1, result)
  let s2 := step2.1
  let result2 := step2.2
  if result2 = .DONE ∧ data.vertex_to_address.worker_id = s2.worker_id then
    let remove_in_delta := StateDelta.RemoveInEdge data.tx_id data.vertex_to_address.gid
        ⟨s2.worker_id, data.edge_id⟩
    let (uv, r) := (getUpdates s2.vertex_updates data.tx_id).Emplace true remove_in_delta
    ({ s2 with vertex_updates := setUpdates s2.vertex_updates data.tx_id uv }, r)
  else (s2, result2)

/-- The per-collection lambda of UpdatesRpcServer::Apply
(updates_rpc_server.cpp:257-266): a transaction without an entry yields
DONE and leaves the map untouched; otherwise the entry is applied and
then removed (when the application returns at all — a fatal application
never reaches the removal). -/
def applyCollection (env : ApplyEnv) (m : List (TxId × TxUpdates)) (tx : TxId) :
    Outcome × List StateDelta × List (Gid × StateDelta) × List (TxId × TxUpdates) :=
  match findTx m tx with
  | none => (.res .DONE, [], [], m)
  | some u =>
    let r := TxUpdates.Apply env u
    match r.outcome with
    | .fatal => (.fatal, r.wal, r.applied, m)
    | .res res => (.res res, r.wal, r.applied, removeTx m tx)

/-- Result of UpdatesRpcServer::Apply: outcome, WAL emissions, applied
trace and the post state of the server. -/
structure ServerApplyRes where
  outcome : Outcome
  wal : List StateDelta
  applied : List (Gid × StateDelta)
  state : UpdatesRpcServer
deriving DecidableEq, Repr

/-- UpdatesRpcServer::Apply (updates_rpc_server.cpp:256-273): apply the
vertex collection, then the edge collection, and return the first
non-DONE result, or DONE. -/
def UpdatesRpcServer.Apply (env : ApplyEnv) (s : UpdatesRpcServer) (tx : TxId) :
    ServerApplyRes :=
  let v := applyCollection env s.vertex_updates tx
  match v.1 with
  | .fatal => ⟨.fatal, v.2.1, v.2.2.1, { s with vertex_updates := v.2.2.2 }⟩
  | .res vertex_result =>
    let e := applyCollection env s.edge_updates tx
    let s1 := { s with vertex_updates := v.2.2.2, edge_updates := e.2.2.2 }
    match e.1 with
    | .fatal => ⟨.fatal, v.2.1 ++ e.2.1, v.2.2.1 ++ e.2.2.1, s1⟩
    | .res edge_result =>
      if vertex_result ≠ .DONE then
        ⟨.res vertex_result, v.2.1 ++ e.2.1, v.2.2.1 ++ e.2.2.1, s1⟩
      else if edge_result ≠ .DONE then
        ⟨.res edge_result, v.2.1 ++ e.2.1, v.2.2.1 ++ e.2.2.1, s1⟩
      else ⟨.res .DONE, v.2.1 ++ e.2.1, v.2.2.1 ++ e.2.2.1, s1⟩

/-- UpdatesRpcServer::ClearTransactionalCache
(updates_rpc_server.cpp:275-289): drop from both maps every entry whose
transaction id is strictly below `oldest_active`. -/
def UpdatesRpcServer.ClearTransactionalCache (s : UpdatesRpcServer)
    (oldest_active : TxId) : UpdatesRpcServer :=
  { s with
    vertex_updates := s.vertex_updates.filter (fun kv => !decide (kv.1 < oldest_active)),
    edge_updates := s.edge_updates.filter (fun kv => !decide (kv.1 < oldest_active)) }

/-- Modelled from the spec: one logical operator as the cost estimator
sees it (query/plan/cost_estimator.hpp is not under src/) — the operator
contributes a cost constant and a cardinality multiplier.  Estimates are
rationals. -/
structure OpParams where
  cost_param : ℚ
  card_param : ℚ
deriving DecidableEq, Repr

/-- Modelled from the spec: one step of the cost-estimator visitor.  The
state is (cardinality, cost); per the QueryCostEstimator tests the
operators first increment the cost by (incoming cardinality times the
operator's cost constant) and then scale the cardinality by the
operator's multiplier. -/
def estimateStep (st : ℚ × ℚ) (op : OpParams) : ℚ × ℚ :=
  (st.1 * op.card_param, st.2 + st.1 * op.cost_param)

/-- Modelled from the spec: estimating a pipeline of operators from a
given visitor state, leaves first. -/
def estimateFrom (st : ℚ × ℚ) (ops : List OpParams) : ℚ × ℚ :=
  ops.foldl estimateStep st

/-- Modelled from the spec: estimating a whole plan.  The Once leaf
contributes cardinality 1 and cost 0. -/
def estimatePipeline (ops : List OpParams) : ℚ × ℚ :=
  estimateFrom (1, 0) ops

/-
Concrete sample values, used by the witness theorems of the claims.
-/

/-- A storage environment in which no operation ever raises and every
vertex still has incident edges. -/
def envCalm : ApplyEnv where
  raises := fun _ _ => none
  vertexHasEdges := fun _ => true

/-- A storage environment in which every operation on record 1 raises a
serialization error, operations on record 2 see the record deleted,
operations on record 3 time out on the lock, and no vertex has edges. -/
def envAngry : ApplyEnv where
  raises := fun g _ =>
    if g = 1 then some .serializationError
    else if g = 2 then some .recordDeleted
    else if g = 3 then some .lockTimeout
    else none
  vertexHasEdges := fun _ => false

/-- A sample property-set delta of transaction 7 on vertex 4. -/
def dSetProp : StateDelta :=
  { type := .SET_PROPERTY_VERTEX, transaction_id := 7, vertex_id := 4,
    property := 1, value := 2 }

/-- A sample property-set delta of transaction 7 on vertex 1. -/
def dSetPropOne : StateDelta :=
  { type := .SET_PROPERTY_VERTEX, transaction_id := 7, vertex_id := 1,
    property := 1, value := 2 }

/-- A sample ADD_OUT_EDGE delta of transaction 7 on vertex 4. -/
def dAddOut : StateDelta :=
  StateDelta.AddOutEdge 7 4 ⟨1, 5⟩ ⟨0, 9⟩ 3

/-- A sample checked REMOVE_VERTEX delta of transaction 7 on vertex 4. -/
def dRemoveVertexChecked : StateDelta :=
  StateDelta.RemoveVertex 7 4 true

/-- A sample server: worker 0, an empty local store, transaction 7
holding one buffered vertex delta on record 1 and one buffered edge
delta on record 6. -/
def sampleServer : UpdatesRpcServer where
  worker_id := 0
  db := ⟨10, [], []⟩
  vertex_updates := [(7, ⟨[(1, [dSetPropOne])]⟩)]
  edge_updates := [(7, ⟨[(6, [{ type := .SET_PROPERTY_EDGE, transaction_id := 7,
                                edge_id := 6, property := 1, value := 2 }])]⟩)]

/-- A sample ADD_LABEL delta of transaction 7 on vertex 9. -/
def dAddLabelNine : StateDelta :=
  { type := .ADD_LABEL, transaction_id := 7, vertex_id := 9, label := 2 }

/-- A sample per-transaction buffer: two deltas queued on record 4, one
on record 9. -/
def sampleTxUpdates : TxUpdates :=
  ⟨[(4, [dSetProp, dAddOut]), (9, [dAddLabelNine])]⟩

/-- A server with one fresh local store and no buffered updates. -/
def freshServer : UpdatesRpcServer where
  worker_id := 0
  db := ⟨0, [], []⟩
  vertex_updates := []
  edge_updates := []

/-- A sample CreateEdge request of transaction 7: from vertex 1 to the
local vertex 2, edge type 5. -/
def ceReq : CreateEdgeReqData :=
  { tx_id := 7, from_gid := 1, to_addr := ⟨0, 2⟩, edge_type := 5 }

/-- A sample RemoveEdge request of transaction 7: edge 6 from vertex 1
to the local vertex 2. -/
def reReq : RemoveEdgeData :=
  { tx_id := 7, edge_id := 6, vertex_from_id := 1, vertex_to_address := ⟨0, 2⟩ }

/-
Helper lemmas.
-/

theorem findQueue_addDelta_self (l : List (Gid × List StateDelta)) (g : Gid)
    (d : StateDelta) : findQueue (addDelta l g d) g = some (queueOf l g ++ [d]) := by
  induction l with
  | nil => simp [addDelta, findQueue, queueOf]
  | cons kv rest ih =>
    obtain ⟨g1, q1⟩ := kv
    by_cases h : g1 = g
    · subst h
      simp [addDelta, findQueue, queueOf]
    · simpa [addDelta, findQueue, h, queueOf] using ih

theorem findQueue_addDelta_other (l : List (Gid × List StateDelta)) (g g2 : Gid)
    (d : StateDelta) (h : g ≠ g2) :
    findQueue (addDelta l g d) g2 = findQueue l g2 := by
  induction l with
  | nil => simp [addDelta, findQueue, h]
  | cons kv rest ih =>
    obtain ⟨g1, q1⟩ := kv
    by_cases h1 : g1 = g
    · subst h1
      simp [addDelta, findQueue, h]
    · simp only [addDelta, if_neg h1]
      by_cases h2 : g1 = g2 <;> simp [findQueue, h2, ih]

theorem queueOf_addDelta (l : List (Gid × List StateDelta)) (g g2 : Gid)
    (d : StateDelta) :
    queueOf (addDelta l g d) g2
      = queueOf l g2 ++ (if g = g2 then [d] else []) := by
  by_cases h : g = g2
  · subst h
    simp [queueOf, findQueue_addDelta_self]
  · simp [queueOf, findQueue_addDelta_other l g g2 d h, h]

theorem applyOne_err_ne_done (env : ApplyEnv) (g : Gid) (d : StateDelta) :
    applyOne env g d ≠ .err .DONE := by
  rcases ht : d.type <;>
    rcases hr : env.raises g d with _ | (_ | _ | _) <;>
      simp [applyOne, ht, hr, errorResult] <;>
      (split <;> simp)

theorem applyOne_ok_wal (env : ApplyEnv) (g : Gid) (d : StateDelta)
    (w : List StateDelta) (h : applyOne env g d = .ok w) :
    w = if d.type = .ADD_OUT_EDGE ∨ d.type = .ADD_IN_EDGE then [d] else [] := by
  rcases ht : d.type <;>
    rcases hr : env.raises g d with _ | (_ | _ | _) <;>
      simp only [applyOne, ht, hr] at h <;>
      (try split at h) <;>
      simp_all

theorem applyQueue_done_applied (env : ApplyEnv) (g : Gid) (q : List StateDelta)
    (h : (applyQueue env g q).outcome = .res .DONE) :
    (applyQueue env g q).applied = q.map (fun d => (g, d)) := by
  induction q with
  | nil => simp [applyQueue]
  | cons d ds ih =>
    rcases ho : applyOne env g d with w | r | _
    · simp only [applyQueue, ho] at h ⊢
      simp [ih h]
    · simp only [applyQueue, ho] at h
      cases h
      exact absurd ho (applyOne_err_ne_done env g d)
    · simp [applyQueue, ho] at h

theorem applyQueue_applied_key (env : ApplyEnv) (g : Gid) (q : List StateDelta) :
    ∀ p ∈ (applyQueue env g q).applied, p.1 = g := by
  induction q with
  | nil => simp [applyQueue]
  | cons d ds ih =>
    intro p hp
    rcases ho : applyOne env g d with w | r | _ <;>
      simp only [applyQueue, ho, List.mem_cons] at hp
    · rcases hp with rfl | hp
      · rfl
      · exact ih p hp
    · simp at hp
    · simp at hp

theorem applyEntries_applied_key (env : ApplyEnv)
    (l : List (Gid × List StateDelta)) :
    ∀ p ∈ (applyEntries env l).applied, p.1 ∈ l.map Prod.fst := by
  induction l with
  | nil => simp [applyEntries]
  | cons e rest ih =>
    obtain ⟨g, q⟩ := e
    intro p hp
    have key : p ∈ (applyQueue env g q).applied ∨ p ∈ (applyEntries env rest).applied →
        p.1 ∈ ((g, q) :: rest).map Prod.fst := by
      intro h
      rcases h with h | h
      · have hk := applyQueue_applied_key env g q p h
        rw [List.map_cons, hk]
        exact List.mem_cons_self _ _
      · exact List.map_cons Prod.fst (g, q) rest ▸ List.mem_cons_of_mem _ (ih p h)
    rcases ho : (applyQueue env g q).outcome with (_ | _ | _ | _ | _) | _ <;>
      simp only [applyEntries, ho] at hp <;>
      first
        | exact key (List.mem_append.mp hp)
        | exact key (Or.inl hp)

theorem appliedAt_append (g : Gid) (a1 a2 : List (Gid × StateDelta)) :
    appliedAt g (a1 ++ a2) = appliedAt g a1 ++ appliedAt g a2 := by
  simp [appliedAt]

theorem appliedAt_map_self (g : Gid) (q : List StateDelta) :
    appliedAt g (q.map (fun d => (g, d))) = q := by
  induction q with
  | nil => simp [appliedAt]
  | cons d ds ih => simpa [appliedAt] using ih

theorem appliedAt_of_keys_ne (g : Gid) (a : List (Gid × StateDelta))
    (h : ∀ p ∈ a, p.1 ≠ g) : appliedAt g a = [] := by
  induction a with
  | nil => simp [appliedAt]
  | cons p rest ih =>
    have hp := h p (by simp)
    simp only [appliedAt, List.filter_cons]
    simp only [appliedAt] at ih
    simp [hp, ih fun p hp => h p (by simp [hp])]

theorem applyEntries_done_appliedAt (env : ApplyEnv)
    (l : List (Gid × List StateDelta)) (g : Gid) (q : List StateDelta)
    (hnd : (l.map Prod.fst).Nodup) (hmem : (g, q) ∈ l)
    (hdone : (applyEntries env l).outcome = .res .DONE) :
    appliedAt g (applyEntries env l).applied = q := by
  induction l with
  | nil => simp at hmem
  | cons e rest ih =>
    obtain ⟨g1, q1⟩ := e
    simp only [List.map_cons, List.nodup_cons] at hnd
    obtain ⟨hg1, hndr⟩ := hnd
    rcases ho : (applyQueue env g1 q1).outcome with (_ | _ | _ | _ | _) | _ <;>
      simp only [applyEntries, ho] at hdone ⊢ <;>
      try (exact absurd hdone (by simp))
    have hq1 : (applyQueue env g1 q1).applied = q1.map (fun d => (g1, d)) :=
      applyQueue_done_applied env g1 q1 ho
    rw [hq1, appliedAt_append]
    rw [List.mem_cons] at hmem
    rcases hmem with heq | htail
    · rw [Prod.mk.injEq] at heq
      obtain ⟨hg, hq⟩ := heq
      subst hg
      subst hq
      have htz : appliedAt g (applyEntries env rest).applied = [] := by
        refine appliedAt_of_keys_ne g _ (fun p hp => ?_)
        have := applyEntries_applied_key env rest p hp
        intro hpg
        exact hg1 (hpg ▸ this)
      rw [appliedAt_map_self, htz, List.append_nil]
    · have hgne : g ≠ g1 := by
        intro hgg
        exact hg1 (hgg ▸ List.mem_map.mpr ⟨(g, q), htail, rfl⟩)
      have hhz : appliedAt g (q1.map (fun d => (g1, d))) = [] := by
        refine appliedAt_of_keys_ne g _ (fun p hp => ?_)
        rcases List.mem_map.mp hp with ⟨d, _, rfl⟩
        simpa using fun h => hgne h.symm
      rw [hhz, List.nil_append]
      exact ih hndr htail hdone

theorem applyQueue_wal (env : ApplyEnv) (g : Gid) (q : List StateDelta) :
    (applyQueue env g q).wal =
      ((applyQueue env g q).applied.filter
        (fun p => decide (p.2.type = .ADD_OUT_EDGE) || decide (p.2.type = .ADD_IN_EDGE))).map
        Prod.snd := by
  induction q with
  | nil => simp [applyQueue]
  | cons d ds ih =>
    rcases ho : applyOne env g d with w | r | _ <;>
      simp only [applyQueue, ho]
    · have hw := applyOne_ok_wal env g d w ho
      by_cases hd : d.type = .ADD_OUT_EDGE ∨ d.type = .ADD_IN_EDGE
      · rw [if_pos hd] at hw
        subst hw
        rcases hd with hd | hd <;>
          simp [List.filter_cons, hd, ih]
      · rw [if_neg hd] at hw
        subst hw
        rw [not_or] at hd
        simp [List.filter_cons, hd.1, hd.2, ih]
    · simp
    · simp

theorem applyEntries_wal (env : ApplyEnv) (l : List (Gid × List StateDelta)) :
    (applyEntries env l).wal =
      ((applyEntries env l).applied.filter
        (fun p => decide (p.2.type = .ADD_OUT_EDGE) || decide (p.2.type = .ADD_IN_EDGE))).map
        Prod.snd := by
  induction l with
  | nil => simp [applyEntries]
  | cons e rest ih =>
    obtain ⟨g, q⟩ := e
    rcases ho : (applyQueue env g q).outcome with (_ | _ | _ | _ | _) | _ <;>
      simp only [applyEntries, ho] <;>
      simp [List.filter_append, applyQueue_wal env g q, ih]

theorem queueOf_emplaceAll (u : TxUpdates) (isVertex : Bool) (ds : List StateDelta)
    (g : Gid) :
    queueOf (emplaceAll u isVertex ds).deltas g
      = queueOf u.deltas g
        ++ ds.filter (fun d => decide ((if isVertex then d.vertex_id else d.edge_id) = g)) := by
  induction ds generalizing u with
  | nil => simp [emplaceAll]
  | cons d ds ih =>
    have hstep : (emplaceAll u isVertex (d :: ds))
        = emplaceAll ⟨addDelta u.deltas (if isVertex then d.vertex_id else d.edge_id) d⟩
            isVertex ds := by
      simp [emplaceAll, TxUpdates.Emplace]
    rw [hstep, ih]
    rw [queueOf_addDelta]
    by_cases hd : (if isVertex then d.vertex_id else d.edge_id) = g <;>
      simp [List.filter_cons, hd]

theorem findTx_setUpdates_self (m : List (TxId × TxUpdates)) (tx : TxId)
    (u : TxUpdates) : findTx (setUpdates m tx u) tx = some u := by
  induction m with
  | nil => simp [setUpdates, findTx]
  | cons kv rest ih =>
    obtain ⟨t, u0⟩ := kv
    by_cases h : t = tx
    · subst h
      simp [setUpdates, findTx]
    · simp [setUpdates, findTx, h, ih]

theorem getUpdates_setUpdates_self (m : List (TxId × TxUpdates)) (tx : TxId)
    (u : TxUpdates) : getUpdates (setUpdates m tx u) tx = u := by
  simp [getUpdates, findTx_setUpdates_self]

theorem findTx_removeTx_self (m : List (TxId × TxUpdates)) (tx : TxId) :
    findTx (removeTx m tx) tx = none := by
  induction m with
  | nil => simp [removeTx, findTx]
  | cons kv rest ih =>
    obtain ⟨t, u⟩ := kv
    by_cases h : t = tx
    · subst h
      simpa [removeTx, List.filter_cons] using ih
    · simpa [removeTx, List.filter_cons, findTx, h] using ih

theorem applyCollection_removed (env : ApplyEnv) (m : List (TxId × TxUpdates))
    (tx : TxId) (r : UpdateResult)
    (h : (applyCollection env m tx).1 = .res r) :
    findTx (applyCollection env m tx).2.2.2 tx = none := by
  rcases hf : findTx m tx with _ | u
  · simp [applyCollection, hf]
  · rcases ho : (TxUpdates.Apply env u).outcome with r1 | _
    · simp [applyCollection, hf, ho, findTx_removeTx_self]
    · simp [applyCollection, hf, ho] at h

theorem applyCollection_absent (env : ApplyEnv) (m : List (TxId × TxUpdates))
    (tx : TxId) (h : findTx m tx = none) :
    applyCollection env m tx = (.res .DONE, [], [], m) := by
  simp [applyCollection, h]

theorem serverApply_eq (env : ApplyEnv) (s : UpdatesRpcServer) (tx : TxId)
    (rv re : UpdateResult)
    (hv : (applyCollection env s.vertex_updates tx).1 = .res rv)
    (he : (applyCollection env s.edge_updates tx).1 = .res re) :
    UpdatesRpcServer.Apply env s tx =
      ⟨.res (if rv ≠ .DONE then rv else re),
       (applyCollection env s.vertex_updates tx).2.1
         ++ (applyCollection env s.edge_updates tx).2.1,
       (applyCollection env s.vertex_updates tx).2.2.1
         ++ (applyCollection env s.edge_updates tx).2.2.1,
       { s with vertex_updates := (applyCollection env s.vertex_updates tx).2.2.2,
                edge_updates := (applyCollection env s.edge_updates tx).2.2.2 }⟩ := by
  simp only [UpdatesRpcServer.Apply]
  rw [hv, he]
  by_cases hrv : rv = .DONE <;> by_cases hre : re = .DONE <;>
    simp [hrv, hre]

theorem findQueue_append_none (l l2 : List (Gid × List StateDelta)) (g : Gid)
    (h : findQueue l g = none) : findQueue (l ++ l2) g = findQueue l2 g := by
  induction l with
  | nil => simp
  | cons kv rest ih =>
    obtain ⟨g1, q1⟩ := kv
    by_cases hg : g1 = g
    · simp [findQueue, hg] at h
    · simp only [findQueue, hg, if_neg hg, List.cons_append] at h ⊢
      exact ih h

theorem findQueue_emplaceEntry_fresh (l : List (Gid × List StateDelta)) (g : Gid)
    (h : findQueue l g = none) : findQueue (emplaceEntry l g) g = some [] := by
  rw [emplaceEntry, h, findQueue_append_none l _ g h]
  simp [findQueue]

theorem findVertex_append_none (l l2 : List (Gid × LocalVertex)) (g : Gid)
    (h : findVertex l g = none) : findVertex (l ++ l2) g = findVertex l2 g := by
  induction l with
  | nil => simp
  | cons kv rest ih =>
    obtain ⟨g1, v1⟩ := kv
    by_cases hg : g1 = g
    · simp [findVertex, hg] at h
    · simp only [findVertex, hg, if_neg hg, List.cons_append] at h ⊢
      exact ih h

theorem foldl_add_label (labels : List Nat) (v0 : LocalVertex)
    (hnd : labels.Nodup) (hdis : ∀ l ∈ labels, l ∉ v0.labels) :
    labels.foldl (fun v l => v.add_label l) v0 = ⟨v0.labels ++ labels, v0.props⟩ := by
  induction labels generalizing v0 with
  | nil => simp
  | cons a rest ih =>
    obtain ⟨ha, hndr⟩ := List.nodup_cons.mp hnd
    have ha0 : a ∉ v0.labels := hdis a (by simp)
    have hstep : v0.add_label a = ⟨v0.labels ++ [a], v0.props⟩ := by
      simp [LocalVertex.add_label, ha0]
    have hdis1 : ∀ l ∈ rest, l ∉ v0.labels ++ [a] := by
      intro l hl
      simp only [List.mem_append, List.mem_singleton]
      rintro (h | rfl)
      · exact hdis l (by simp [hl]) h
      · exact ha hl
    simp only [List.foldl_cons, hstep, ih ⟨v0.labels ++ [a], v0.props⟩ hndr hdis1]
    simp

theorem foldl_PropsSet (props : List (Nat × Nat)) (v0 : LocalVertex)
    (hnd : (props.map Prod.fst).Nodup)
    (hdis : ∀ kv ∈ props, kv.1 ∉ v0.props.map Prod.fst) :
    props.foldl (fun v kv => v.PropsSet kv.1 kv.2) v0
      = ⟨v0.labels, v0.props ++ props⟩ := by
  induction props generalizing v0 with
  | nil => simp
  | cons a rest ih =>
    simp only [List.map_cons, List.nodup_cons] at hnd
    obtain ⟨ha, hndr⟩ := hnd
    have ha0 : a.1 ∉ v0.props.map Prod.fst := hdis a (by simp)
    have hfilter : v0.props.filter (fun kv => !decide (kv.1 = a.1)) = v0.props := by
      rw [List.filter_eq_self]
      intro kv hkv
      simp only [Bool.not_eq_true', decide_eq_false_iff_not]
      intro hk
      exact ha0 (List.mem_map.mpr ⟨kv, hkv, hk⟩)
    have hstep : v0.PropsSet a.1 a.2 = ⟨v0.labels, v0.props ++ [a]⟩ := by
      simp [LocalVertex.PropsSet, hfilter]
    have hdis1 : ∀ kv ∈ rest, kv.1 ∉ (v0.props ++ [a]).map Prod.fst := by
      intro kv hkv
      simp only [List.map_append, List.mem_append, List.map_cons, List.map_nil,
        List.mem_singleton]
      rintro (h | h)
      · exact hdis kv (by simp [hkv]) h
      · exact ha (h ▸ List.mem_map.mpr ⟨kv, hkv, rfl⟩)
    simp only [List.foldl_cons, hstep, ih ⟨v0.labels, v0.props ++ [a]⟩ hndr hdis1]
    simp

theorem estimateFrom_linear (l : List OpParams) : ∀ c k : ℚ,
    estimateFrom (c, k) l
      = (c * (estimatePipeline l).1, k + c * (estimatePipeline l).2) := by
  induction l with
  | nil =>
    intro c k
    simp [estimateFrom, estimatePipeline]
  | cons op rest ih =>
    intro c k
    have h1 : estimateFrom (c, k) (op :: rest)
        = estimateFrom (c * op.card_param, k + c * op.cost_param) rest := rfl
    have h2 : estimatePipeline (op :: rest)
        = estimateFrom (1 * op.card_param, 0 + 1 * op.cost_param) rest := rfl
    rw [h1, h2, ih, ih]
    simp only [Prod.mk.injEq]
    constructor <;> ring

theorem estimatePipeline_append (l1 l2 : List OpParams) :
    estimatePipeline (l1 ++ l2)
      = ((estimatePipeline l1).1 * (estimatePipeline l2).1,
         (estimatePipeline l1).2 + (estimatePipeline l1).1 * (estimatePipeline l2).2) := by
  have h0 : estimatePipeline (l1 ++ l2) = estimateFrom (estimatePipeline l1) l2 := by
    simp [estimatePipeline, estimateFrom, List.foldl_append]
  rcases h : estimatePipeline l1 with ⟨c, k⟩
  rw [h0, h, estimateFrom_linear]

theorem estimatePipeline_card_pos (l : List OpParams)
    (h : ∀ op ∈ l, 0 < op.card_param) : 0 < (estimatePipeline l).1 := by
  induction l with
  | nil => simp [estimatePipeline, estimateFrom]
  | cons op rest ih =>
    have h2 : estimatePipeline (op :: rest)
        = estimateFrom (1 * op.card_param, 0 + 1 * op.cost_param) rest := rfl
    rw [h2, estimateFrom_linear]
    have hpos := mul_pos (h op (by simp)) (ih (fun o ho => h o (by simp [ho])))
    simpa using hpos

/-
The claims.
-/

/-- Claim C1: UpdatesRpcServer::Apply applies the buffered vertex
updates and then the buffered edge updates and returns the first
non-Done result among the two applications, or Done when both succeed;
a buffered delta whose application raises SerializationError,
RecordDeleted or LockTimeout yields the SERIALIZATION_ERROR,
UPDATE_DELETED_ERROR or LOCK_TIMEOUT_ERROR result respectively, and a
REMOVE_VERTEX delta with check_empty set, applied to a vertex that
still has edges, yields UNABLE_TO_DELETE_VERTEX_ERROR. -/
theorem claim_c1_apply_first_error :
    (∀ (env : ApplyEnv) (s : UpdatesRpcServer) (tx : TxId) (rv re : UpdateResult),
      (applyCollection env s.vertex_updates tx).1 = .res rv →
      (applyCollection env s.edge_updates tx).1 = .res re →
      (UpdatesRpcServer.Apply env s tx).outcome = .res (if rv ≠ .DONE then rv else re) ∧
      (UpdatesRpcServer.Apply env s tx).applied
        = (applyCollection env s.vertex_updates tx).2.2.1
          ++ (applyCollection env s.edge_updates tx).2.2.1) ∧
    (∀ (env : ApplyEnv) (g : Gid) (d : StateDelta),
      d.type.isRecordUpdate = true →
      env.raises g d = some .serializationError →
      applyOne env g d = .err .SERIALIZATION_ERROR) ∧
    (∀ (env : ApplyEnv) (g : Gid) (d : StateDelta),
      d.type.isRecordUpdate = true →
      env.raises g d = some .recordDeleted →
      applyOne env g d = .err .UPDATE_DELETED_ERROR) ∧
    (∀ (env : ApplyEnv) (g : Gid) (d : StateDelta),
      d.type.isRecordUpdate = true →
      env.raises g d = some .lockTimeout →
      applyOne env g d = .err .LOCK_TIMEOUT_ERROR) ∧
    (∀ (env : ApplyEnv) (g : Gid) (d : StateDelta),
      d.type = .REMOVE_VERTEX → d.check_empty = true →
      env.raises g d = none → env.vertexHasEdges g = true →
      applyOne env g d = .err .UNABLE_TO_DELETE_VERTEX_ERROR) := by
  refine ⟨?_, ?_, ?_, ?_, ?_⟩
  · intro env s tx rv re hv he
    rw [serverApply_eq env s tx rv re hv he]
    exact ⟨rfl, rfl⟩
  · intro env g d hrec hr
    rcases ht : d.type <;> simp [DeltaType.isRecordUpdate, ht] at hrec <;>
      simp [applyOne, ht, hr, errorResult]
  · intro env g d hrec hr
    rcases ht : d.type <;> simp [DeltaType.isRecordUpdate, ht] at hrec <;>
      simp [applyOne, ht, hr, errorResult]
  · intro env g d hrec hr
    rcases ht : d.type <;> simp [DeltaType.isRecordUpdate, ht] at hrec <;>
      simp [applyOne, ht, hr, errorResult]
  · intro env g d ht hce hr hhe
    simp [applyOne, ht, hr, removeVertexSucceeds, hce, hhe]

/-- Witness for C1 at concrete inputs: on `sampleServer` the vertex
application fails with a serialization error on record 1 and Apply
returns it, and the three exception mappings and the checked
REMOVE_VERTEX refusal are exhibited on concrete deltas. -/
theorem claim_c1_apply_first_error_witness :
    ((UpdatesRpcServer.Apply envAngry sampleServer 7).outcome
        = .res (if UpdateResult.SERIALIZATION_ERROR ≠ .DONE
                then UpdateResult.SERIALIZATION_ERROR else .DONE) ∧
     (UpdatesRpcServer.Apply envAngry sampleServer 7).applied
        = (applyCollection envAngry sampleServer.vertex_updates 7).2.2.1
          ++ (applyCollection envAngry sampleServer.edge_updates 7).2.2.1) ∧
    applyOne envAngry 1 dSetPropOne = .err .SERIALIZATION_ERROR ∧
    applyOne envAngry 2 dSetPropOne = .err .UPDATE_DELETED_ERROR ∧
    applyOne envAngry 3 dSetPropOne = .err .LOCK_TIMEOUT_ERROR ∧
    applyOne envCalm 4 dRemoveVertexChecked = .err .UNABLE_TO_DELETE_VERTEX_ERROR :=
  ⟨claim_c1_apply_first_error.1 envAngry sampleServer 7 .SERIALIZATION_ERROR .DONE
      (by decide) (by decide),
   claim_c1_apply_first_error.2.1 envAngry 1 dSetPropOne (by decide) (by decide),
   claim_c1_apply_first_error.2.2.1 envAngry 2 dSetPropOne (by decide) (by decide),
   claim_c1_apply_first_error.2.2.2.1 envAngry 3 dSetPropOne (by decide) (by decide),
   claim_c1_apply_first_error.2.2.2.2 envCalm 4 dRemoveVertexChecked
      (by decide) (by decide) (by decide) (by decide)⟩

/-- Claim C3: TransactionUpdates::Emplace enqueues the delta at the back
of the queue of its record (vertex deltas are keyed by the vertex id,
edge deltas by the edge id), leaves every other record's queue
untouched, and always returns DONE — in particular no serialization,
record-deleted or lock-timeout error is detected at Emplace time. -/
theorem claim_c3_emplace_enqueues_lazily :
    ∀ (u : TxUpdates) (isVertex : Bool) (d : StateDelta),
      (u.Emplace isVertex d).2 = .DONE ∧
      queueOf (u.Emplace isVertex d).1.deltas (if isVertex then d.vertex_id else d.edge_id)
        = queueOf u.deltas (if isVertex then d.vertex_id else d.edge_id) ++ [d] ∧
      ∀ g : Gid, g ≠ (if isVertex then d.vertex_id else d.edge_id) →
        queueOf (u.Emplace isVertex d).1.deltas g = queueOf u.deltas g := by
  intro u isVertex d
  refine ⟨rfl, ?_, ?_⟩
  · simp [TxUpdates.Emplace, queueOf, findQueue_addDelta_self]
  · intro g hg
    simp [TxUpdates.Emplace, queueOf,
      findQueue_addDelta_other u.deltas _ g d (fun h => hg h.symm)]

/-- Claim C7: during Apply a buffered delta is emplaced into the WAL if
and only if its type is ADD_OUT_EDGE or ADD_IN_EDGE — the WAL trace of
an Apply run is exactly the subsequence of successfully applied deltas
of those two types, and every other successfully applied delta emits
nothing. -/
theorem claim_c7_wal_structural_only :
    (∀ (env : ApplyEnv) (g : Gid) (d : StateDelta) (w : List StateDelta),
      applyOne env g d = .ok w →
      w = if d.type = .ADD_OUT_EDGE ∨ d.type = .ADD_IN_EDGE then [d] else []) ∧
    (∀ (env : ApplyEnv) (u : TxUpdates),
      (TxUpdates.Apply env u).wal =
        ((TxUpdates.Apply env u).applied.filter
          (fun p => decide (p.2.type = .ADD_OUT_EDGE)
            || decide (p.2.type = .ADD_IN_EDGE))).map Prod.snd) := by
  refine ⟨applyOne_ok_wal, ?_⟩
  intro env u
  exact applyEntries_wal env u.deltas

/-- Witness for C7 at concrete inputs: an applied ADD_OUT_EDGE delta is
its own WAL emission, an applied property-set delta emits nothing. -/
theorem claim_c7_wal_structural_only_witness :
    ([dAddOut] = if dAddOut.type = .ADD_OUT_EDGE ∨ dAddOut.type = .ADD_IN_EDGE
                 then [dAddOut] else []) ∧
    (([] : List StateDelta)
        = if dSetProp.type = .ADD_OUT_EDGE ∨ dSetProp.type = .ADD_IN_EDGE
          then [dSetProp] else []) :=
  ⟨claim_c7_wal_structural_only.1 envCalm 4 dAddOut [dAddOut] (by decide),
   claim_c7_wal_structural_only.1 envCalm 4 dSetProp [] (by decide)⟩

/-- Claim C9: ClearTransactionalCache(oldest_active) removes from both
update maps exactly the entries whose transaction id is strictly less
than oldest_active; every entry with id at least oldest_active survives
with its buffered delta queues unchanged. -/
theorem claim_c9_clear_cache :
    ∀ (s : UpdatesRpcServer) (oldest_active t : TxId) (u : TxUpdates),
      ((t, u) ∈ (s.ClearTransactionalCache oldest_active).vertex_updates ↔
        ((t, u) ∈ s.vertex_updates ∧ oldest_active ≤ t)) ∧
      ((t, u) ∈ (s.ClearTransactionalCache oldest_active).edge_updates ↔
        ((t, u) ∈ s.edge_updates ∧ oldest_active ≤ t)) := by
  intro s oldest_active t u
  constructor <;>
    simp [UpdatesRpcServer.ClearTransactionalCache, List.mem_filter, Nat.not_lt]

/-- Claim C10: UpdatesRpcServer::Apply removes the transaction's entry
from both maps whenever it returns (also on an error result); Apply of
a transaction with no buffered updates returns DONE, changes nothing
and applies no delta; hence a second Apply of the same transaction
returns DONE without applying any delta. -/
theorem claim_c10_apply_removes_entry :
    (∀ (env : ApplyEnv) (s : UpdatesRpcServer) (tx : TxId) (r : UpdateResult),
      (UpdatesRpcServer.Apply env s tx).outcome = .res r →
      findTx (UpdatesRpcServer.Apply env s tx).state.vertex_updates tx = none ∧
      findTx (UpdatesRpcServer.Apply env s tx).state.edge_updates tx = none) ∧
    (∀ (env : ApplyEnv) (s : UpdatesRpcServer) (tx : TxId),
      findTx s.vertex_updates tx = none → findTx s.edge_updates tx = none →
      UpdatesRpcServer.Apply env s tx = ⟨.res .DONE, [], [], s⟩) ∧
    (∀ (env : ApplyEnv) (s : UpdatesRpcServer) (tx : TxId) (r : UpdateResult),
      (UpdatesRpcServer.Apply env s tx).outcome = .res r →
      (UpdatesRpcServer.Apply env (UpdatesRpcServer.Apply env s tx).state tx).outcome
          = .res .DONE ∧
      (UpdatesRpcServer.Apply env (UpdatesRpcServer.Apply env s tx).state tx).applied
          = []) := by
  have habsent : ∀ (env : ApplyEnv) (s : UpdatesRpcServer) (tx : TxId),
      findTx s.vertex_updates tx = none → findTx s.edge_updates tx = none →
      UpdatesRpcServer.Apply env s tx = ⟨.res .DONE, [], [], s⟩ := by
    intro env s tx h1 h2
    rw [serverApply_eq env s tx .DONE .DONE
      (by rw [applyCollection_absent env _ _ h1])
      (by rw [applyCollection_absent env _ _ h2])]
    rw [applyCollection_absent env _ _ h1, applyCollection_absent env _ _ h2]
    rfl
  have hremoved : ∀ (env : ApplyEnv) (s : UpdatesRpcServer) (tx : TxId) (r : UpdateResult),
      (UpdatesRpcServer.Apply env s tx).outcome = .res r →
      findTx (UpdatesRpcServer.Apply env s tx).state.vertex_updates tx = none ∧
      findTx (UpdatesRpcServer.Apply env s tx).state.edge_updates tx = none := by
    intro env s tx r h
    rcases hv : (applyCollection env s.vertex_updates tx).1 with rv | _
    · rcases he : (applyCollection env s.edge_updates tx).1 with re | _
      · rw [serverApply_eq env s tx rv re hv he]
        exact ⟨applyCollection_removed env _ _ rv hv,
               applyCollection_removed env _ _ re he⟩
      · exfalso
        simp only [UpdatesRpcServer.Apply] at h
        rw [hv, he] at h
        simp at h
    · exfalso
      simp only [UpdatesRpcServer.Apply] at h
      rw [hv] at h
      simp at h
  refine ⟨hremoved, habsent, ?_⟩
  intro env s tx r h
  obtain ⟨h1, h2⟩ := hremoved env s tx r h
  rw [habsent env _ tx h1 h2]
  exact ⟨rfl, rfl⟩

/-- Witness for C10 at concrete inputs: on `sampleServer` the first
Apply of transaction 7 returns an error yet removes the entries, the
second Apply returns DONE with an empty application trace, and Apply of
the unknown transaction 5 is a no-op returning DONE. -/
theorem claim_c10_apply_removes_entry_witness :
    (findTx (UpdatesRpcServer.Apply envAngry sampleServer 7).state.vertex_updates 7 = none ∧
     findTx (UpdatesRpcServer.Apply envAngry sampleServer 7).state.edge_updates 7 = none) ∧
    UpdatesRpcServer.Apply envAngry sampleServer 5 = ⟨.res .DONE, [], [], sampleServer⟩ ∧
    ((UpdatesRpcServer.Apply envAngry
        (UpdatesRpcServer.Apply envAngry sampleServer 7).state 7).outcome = .res .DONE ∧
     (UpdatesRpcServer.Apply envAngry
        (UpdatesRpcServer.Apply envAngry sampleServer 7).state 7).applied = []) :=
  ⟨claim_c10_apply_removes_entry.1 envAngry sampleServer 7 .SERIALIZATION_ERROR (by decide),
   claim_c10_apply_removes_entry.2.1 envAngry sampleServer 5 (by decide) (by decide),
   claim_c10_apply_removes_entry.2.2 envAngry sampleServer 7 .SERIALIZATION_ERROR (by decide)⟩

/-- Claim C2: the deltas emplaced for a record accumulate at the back of
that record's queue in arrival order (a delta for another record leaves
it untouched), and an Apply that returns DONE applies, for each buffered
record, exactly that record's queue in queue order — so the deltas of a
record are applied in emplacement order, and what is applied at a record
is a function of that record's queue alone. -/
theorem claim_c2_per_record_fifo :
    (∀ (u : TxUpdates) (ds : List StateDelta) (g : Gid),
      queueOf (emplaceAll u true ds).deltas g
        = queueOf u.deltas g ++ ds.filter (fun d => decide (d.vertex_id = g))) ∧
    (∀ (env : ApplyEnv) (u : TxUpdates) (g : Gid) (q : List StateDelta),
      (u.deltas.map Prod.fst).Nodup → (g, q) ∈ u.deltas →
      (TxUpdates.Apply env u).outcome = .res .DONE →
      appliedAt g (TxUpdates.Apply env u).applied = q) := by
  constructor
  · intro u ds g
    simpa using queueOf_emplaceAll u true ds g
  · intro env u g q hnd hmem hdone
    exact applyEntries_done_appliedAt env u.deltas g q hnd hmem hdone

/-- Witness for C2 at concrete inputs: emplacing three vertex deltas
into an empty buffer queues the two deltas of record 4 in order, and
applying `sampleTxUpdates` applies exactly record 4's queue at record 4. -/
theorem claim_c2_per_record_fifo_witness :
    queueOf (emplaceAll (⟨[]⟩ : TxUpdates) true [dSetProp, dAddOut, dAddLabelNine]).deltas 4
      = queueOf (⟨[]⟩ : TxUpdates).deltas 4
        ++ [dSetProp, dAddOut, dAddLabelNine].filter (fun d => decide (d.vertex_id = 4)) ∧
    appliedAt 4 (TxUpdates.Apply envCalm sampleTxUpdates).applied = [dSetProp, dAddOut] :=
  ⟨claim_c2_per_record_fifo.1 ⟨[]⟩ [dSetProp, dAddOut, dAddLabelNine] 4,
   claim_c2_per_record_fifo.2 envCalm sampleTxUpdates 4 [dSetProp, dAddOut]
     (by decide) (by decide) (by decide)⟩

/-- Claim C5: RemoveEdge buffers a REMOVE_EDGE delta at the back of the
edge's queue in the edge updates, then a REMOVE_OUT_EDGE delta on the
from-vertex's queue in the vertex updates, and a REMOVE_IN_EDGE delta on
the to-vertex's queue exactly when the to-vertex's worker id equals this
worker's id; each step runs only while the previous results were Done
and the call returns the last result (always Done, since Emplace never
fails). -/
theorem claim_c5_remove_edge :
    ∀ (s : UpdatesRpcServer) (data : RemoveEdgeData),
      (s.RemoveEdge data).2 = .DONE ∧
      queueOf (getUpdates (s.RemoveEdge data).1.edge_updates data.tx_id).deltas data.edge_id
        = queueOf (getUpdates s.edge_updates data.tx_id).deltas data.edge_id
          ++ [StateDelta.RemoveEdge data.tx_id data.edge_id] ∧
      (∀ g : Gid,
        queueOf (getUpdates (s.RemoveEdge data).1.vertex_updates data.tx_id).deltas g
          = queueOf (getUpdates s.vertex_updates data.tx_id).deltas g
            ++ (StateDelta.RemoveOutEdge data.tx_id data.vertex_from_id
                  ⟨s.worker_id, data.edge_id⟩
                :: (if data.vertex_to_address.worker_id = s.worker_id
                    then [StateDelta.RemoveInEdge data.tx_id data.vertex_to_address.gid
                            ⟨s.worker_id, data.edge_id⟩]
                    else [])).filter (fun d => decide (d.vertex_id = g))) := by
  intro s data
  refine ⟨?_, ?_, ?_⟩
  · by_cases hw : data.vertex_to_address.worker_id = s.worker_id <;>
      simp [UpdatesRpcServer.RemoveEdge, TxUpdates.Emplace, hw]
  · by_cases hw : data.vertex_to_address.worker_id = s.worker_id <;>
      simp [UpdatesRpcServer.RemoveEdge, TxUpdates.Emplace, hw,
        getUpdates_setUpdates_self, queueOf_addDelta, StateDelta.RemoveEdge]
  · intro g
    by_cases hw : data.vertex_to_address.worker_id = s.worker_id <;>
      by_cases h1 : data.vertex_from_id = g <;>
        by_cases h2 : data.vertex_to_address.gid = g <;>
          simp [UpdatesRpcServer.RemoveEdge, TxUpdates.Emplace, hw, h1, h2,
            getUpdates_setUpdates_self, queueOf_addDelta, StateDelta.RemoveOutEdge,
            StateDelta.RemoveInEdge, List.filter_cons]

/-- Counterexample to claim C6 as stated: CreateVertex(labels=[1],
properties=[(2,3)]) of transaction 5 on a fresh server creates vertex 0
and registers it in the transaction's vertex updates with an EMPTY delta
queue — no equivalent delta is buffered there (the labels and properties
were applied eagerly through the accessor instead). -/
theorem claim_c6_counterexample :
    (UpdatesRpcServer.HandleCreateVertex freshServer 5 [1] [(2, 3)]).2.gid = 0 ∧
    findQueue
      (getUpdates
        (UpdatesRpcServer.HandleCreateVertex freshServer 5 [1] [(2, 3)]).1.vertex_updates
        5).deltas 0 = some [] ∧
    ¬ ∃ d : StateDelta,
      d ∈ queueOf
        (getUpdates
          (UpdatesRpcServer.HandleCreateVertex freshServer 5 [1] [(2, 3)]).1.vertex_updates
          5).deltas 0 := by
  refine ⟨by decide, by decide, ?_⟩
  rintro ⟨d, hd⟩
  have hq : queueOf
      (getUpdates
        (UpdatesRpcServer.HandleCreateVertex freshServer 5 [1] [(2, 3)]).1.vertex_updates
        5).deltas 0 = [] := by decide
  rw [hq] at hd
  simp at hd

/-- Claim C6 (amended): CreateVertex inserts through the local graph
accessor a vertex carrying exactly the given labels and properties,
registers the new vertex in the transaction's vertex updates with an
empty delta queue (no delta is buffered — the labels and properties are
applied eagerly through the accessor), and returns the new Gid with
result Done. -/
theorem claim_c6_create_vertex :
    ∀ (s : UpdatesRpcServer) (tx : TxId) (labels : List Nat)
      (properties : List (Nat × Nat)),
      labels.Nodup → (properties.map Prod.fst).Nodup →
      findQueue (getUpdates s.vertex_updates tx).deltas s.db.next_gid = none →
      findVertex s.db.vertices s.db.next_gid = none →
      (s.HandleCreateVertex tx labels properties).2 = ⟨.DONE, s.db.next_gid⟩ ∧
      findVertex (s.HandleCreateVertex tx labels properties).1.db.vertices s.db.next_gid
        = some ⟨labels, properties⟩ ∧
      findQueue
        (getUpdates (s.HandleCreateVertex tx labels properties).1.vertex_updates tx).deltas
        s.db.next_gid = some [] := by
  intro s tx labels properties hndl hndp hfreshq hfreshv
  refine ⟨rfl, ?_, ?_⟩
  · simp only [UpdatesRpcServer.HandleCreateVertex, TxUpdates.CreateVertex]
    rw [findVertex_append_none s.db.vertices _ s.db.next_gid hfreshv]
    rw [foldl_add_label labels ⟨[], []⟩ hndl (by simp)]
    rw [foldl_PropsSet properties ⟨[] ++ labels, []⟩ hndp (by simp)]
    simp [findVertex]
  · simp only [UpdatesRpcServer.HandleCreateVertex, TxUpdates.CreateVertex]
    rw [getUpdates_setUpdates_self]
    exact findQueue_emplaceEntry_fresh _ _ hfreshq

/-- Witness for the amended C6 at concrete inputs: creating a vertex
with label 1 and property 2 ↦ 3 on a fresh server stores exactly those,
registers an empty queue, and returns (DONE, 0). -/
theorem claim_c6_create_vertex_witness :
    (UpdatesRpcServer.HandleCreateVertex freshServer 5 [1] [(2, 3)]).2
        = ⟨.DONE, 0⟩ ∧
    findVertex
      (UpdatesRpcServer.HandleCreateVertex freshServer 5 [1] [(2, 3)]).1.db.vertices 0
        = some ⟨[1], [(2, 3)]⟩ ∧
    findQueue
      (getUpdates
        (UpdatesRpcServer.HandleCreateVertex freshServer 5 [1] [(2, 3)]).1.vertex_updates
        5).deltas 0 = some [] :=
  claim_c6_create_vertex freshServer 5 [1] [(2, 3)]
    (by decide) (by decide) (by decide) (by decide)

/-- Claim C8: the pipeline cost law — the cost of op1 followed by op2 is
cost(op1) plus cardinality(op1) times cost(op2) — holds for the modelled
estimator, and whenever every cardinality multiplier of a plan is
strictly positive and the appended Filter has a strictly positive cost
constant and a cardinality multiplier strictly between 0 and 1, the
appended Filter strictly decreases the emitted cardinality and strictly
increases the total cost. -/
theorem claim_c8_cost_monotone :
    (∀ l1 l2 : List OpParams,
      (estimatePipeline (l1 ++ l2)).2
        = (estimatePipeline l1).2 + (estimatePipeline l1).1 * (estimatePipeline l2).2) ∧
    (∀ (l : List OpParams) (kFilter cFilter : ℚ),
      (∀ op ∈ l, 0 < op.card_param) →
      0 < kFilter → 0 < cFilter → cFilter < 1 →
      (estimatePipeline (l ++ [⟨kFilter, cFilter⟩])).1 < (estimatePipeline l).1 ∧
      (estimatePipeline l).2 < (estimatePipeline (l ++ [⟨kFilter, cFilter⟩])).2) := by
  constructor
  · intro l1 l2
    rw [estimatePipeline_append]
  · intro l kFilter cFilter hcard hk hc0 hc1
    have hpos := estimatePipeline_card_pos l hcard
    have hsingle : estimatePipeline [(⟨kFilter, cFilter⟩ : OpParams)] = (cFilter, kFilter) := by
      simp only [estimatePipeline, estimateFrom, List.foldl_cons, List.foldl_nil, estimateStep]
      norm_num
    rw [estimatePipeline_append, hsingle]
    constructor
    · exact mul_lt_of_lt_one_right hpos hc1
    · exact lt_add_of_pos_right _ (mul_pos hpos hk)

/-- Witness for C8 at concrete inputs: the pipeline law for the
two-operator plan [(2,3)] ++ [(1,1/2)], and a Filter with cost 1 and
multiplier 1/2 appended to the plan [(2,3)]. -/
theorem claim_c8_cost_monotone_witness :
    ((estimatePipeline ([⟨2, 3⟩] ++ [⟨1, 1/2⟩])).2
      = (estimatePipeline [(⟨2, 3⟩ : OpParams)]).2
        + (estimatePipeline [(⟨2, 3⟩ : OpParams)]).1
          * (estimatePipeline [(⟨1, 1/2⟩ : OpParams)]).2) ∧
    ((estimatePipeline ([⟨2, 3⟩] ++ [⟨1, 1/2⟩])).1
        < (estimatePipeline [(⟨2, 3⟩ : OpParams)]).1 ∧
     (estimatePipeline [(⟨2, 3⟩ : OpParams)]).2
        < (estimatePipeline ([⟨2, 3⟩] ++ [⟨1, 1/2⟩])).2) :=
  ⟨claim_c8_cost_monotone.1 [⟨2, 3⟩] [⟨1, 1/2⟩],
   claim_c8_cost_monotone.2 [⟨2, 3⟩] 1 (1/2)
     (by intro op hop
         rw [List.mem_singleton] at hop
         subst hop
         norm_num)
     (by norm_num) (by norm_num) (by norm_num)⟩

/-- Claim C4: for a CreateEdge request handled by worker W the edge
record is inserted locally (into the local store and, with an empty
queue, into the transaction's edge updates), an ADD_OUT_EDGE delta is
enqueued on the from-vertex's queue in the vertex updates at W, and an
ADD_IN_EDGE delta is additionally enqueued on the to-vertex's queue
exactly when the to-vertex's worker id equals W's worker id (the
preceding steps always return Done). -/
theorem claim_c4_create_edge :
    ∀ (s : UpdatesRpcServer) (data : CreateEdgeReqData),
      findQueue (getUpdates s.edge_updates data.tx_id).deltas s.db.next_gid = none →
      (s.HandleCreateEdge data).2 = ⟨.DONE, s.db.next_gid⟩ ∧
      (s.HandleCreateEdge data).1.db.edges
        = s.db.edges ++ [(s.db.next_gid,
            ⟨⟨s.worker_id, data.from_gid⟩, data.to_addr, data.edge_type⟩)] ∧
      findQueue (getUpdates (s.HandleCreateEdge data).1.edge_updates data.tx_id).deltas
        s.db.next_gid = some [] ∧
      (∀ g : Gid,
        queueOf (getUpdates (s.HandleCreateEdge data).1.vertex_updates data.tx_id).deltas g
          = queueOf (getUpdates s.vertex_updates data.tx_id).deltas g
            ++ (StateDelta.AddOutEdge data.tx_id data.from_gid data.to_addr
                  ⟨s.worker_id, s.db.next_gid⟩ data.edge_type
                :: (if data.to_addr.worker_id = s.worker_id
                    then [StateDelta.AddInEdge data.tx_id data.to_addr.gid
                            ⟨s.worker_id, data.from_gid⟩
                            ⟨s.worker_id, s.db.next_gid⟩ data.edge_type]
                    else [])).filter (fun d => decide (d.vertex_id = g))) := by
  intro s data hfresh
  refine ⟨?_, ?_, ?_, ?_⟩
  · by_cases hw : data.to_addr.worker_id = s.worker_id <;>
      simp [UpdatesRpcServer.HandleCreateEdge, UpdatesRpcServer.CreateEdge,
        TxUpdates.CreateEdge, TxUpdates.Emplace, hw]
  · by_cases hw : data.to_addr.worker_id = s.worker_id <;>
      simp [UpdatesRpcServer.HandleCreateEdge, UpdatesRpcServer.CreateEdge,
        TxUpdates.CreateEdge, TxUpdates.Emplace, hw]
  · by_cases hw : data.to_addr.worker_id = s.worker_id <;>
      simp [UpdatesRpcServer.HandleCreateEdge, UpdatesRpcServer.CreateEdge,
        TxUpdates.CreateEdge, TxUpdates.Emplace, hw, getUpdates_setUpdates_self,
        findQueue_emplaceEntry_fresh (getUpdates s.edge_updates data.tx_id).deltas
          s.db.next_gid hfresh]
  · intro g
    by_cases hw : data.to_addr.worker_id = s.worker_id <;>
      by_cases h1 : data.from_gid = g <;>
        by_cases h2 : data.to_addr.gid = g <;>
          simp [UpdatesRpcServer.HandleCreateEdge, UpdatesRpcServer.CreateEdge,
            TxUpdates.CreateEdge, TxUpdates.Emplace, hw, h1, h2,
            getUpdates_setUpdates_self, queueOf_addDelta,
            StateDelta.AddOutEdge, StateDelta.AddInEdge, List.filter_cons]

/-- Witness for C4 at concrete inputs: creating an edge of type 5 from
the local vertex 1 to the local vertex 2 on `sampleServer` inserts edge
10, answers (DONE, 10), and enqueues the ADD_IN_EDGE delta on vertex 2's
queue, whose worker id (0) is this worker's id. -/
theorem claim_c4_create_edge_witness :
    (sampleServer.HandleCreateEdge ceReq).2 = ⟨.DONE, sampleServer.db.next_gid⟩ ∧
    (sampleServer.HandleCreateEdge ceReq).1.db.edges
      = sampleServer.db.edges ++ [(sampleServer.db.next_gid,
          ⟨⟨sampleServer.worker_id, ceReq.from_gid⟩, ceReq.to_addr, ceReq.edge_type⟩)] ∧
    findQueue
      (getUpdates (sampleServer.HandleCreateEdge ceReq).1.edge_updates ceReq.tx_id).deltas
      sampleServer.db.next_gid = some [] ∧
    queueOf
      (getUpdates (sampleServer.HandleCreateEdge ceReq).1.vertex_updates ceReq.tx_id).deltas 2
      = queueOf (getUpdates sampleServer.vertex_updates ceReq.tx_id).deltas 2
        ++ (StateDelta.AddOutEdge ceReq.tx_id ceReq.from_gid ceReq.to_addr
              ⟨sampleServer.worker_id, sampleServer.db.next_gid⟩ ceReq.edge_type
            :: (if ceReq.to_addr.worker_id = sampleServer.worker_id
                then [StateDelta.AddInEdge ceReq.tx_id ceReq.to_addr.gid
                        ⟨sampleServer.worker_id, ceReq.from_gid⟩
                        ⟨sampleServer.worker_id, sampleServer.db.next_gid⟩ ceReq.edge_type]
                else [])).filter (fun d => decide (d.vertex_id = 2)) := by
  have h := claim_c4_create_edge sampleServer ceReq (by decide)
  exact ⟨h.1, h.2.1, h.2.2.1, h.2.2.2 2⟩

end Memgraph
